import Mathlib

/-!
Verification development for `networkx/algorithms/centrality/katz.py`.

The file shallowly embeds the two solvers of that module:

* `katz_centrality`        — the iterative power-method solver;
* `katz_centrality_numpy`  — the dense linear-system solver.

Node identities are natural numbers.  Scores are rationals inside the
iteration (exact arithmetic standing in for Python floats) and become
reals at the final normalisation step, where a square root enters.
Fallible Python code (KeyError, IndexError, the NetworkXError raise,
numpy's LinAlgError, the multigraph rejection) is modelled with
`Except`.
-/

deriving instance DecidableEq for Except

/-- A graph as the code consumes it: the node list in iteration order
(`G.nodes()` / `for n in G`), an adjacency map sending a node to its list
of (neighbor, edge-weight) pairs — `G[n]`, with `none` modelling the
KeyError raised when `n` is not a node — and the multigraph capability
flag `G.is_multigraph()`. -/
structure Graph where
  nodes : List Nat
  adjList : Nat → Option (List (Nat × ℚ))
  multi : Bool

/-- The error kinds either solver can surface.  `networkXError` carries
the two string arguments passed to the `nx.NetworkXError(...)` raise in
`katz_centrality`. -/
inductive KatzError where
  | multigraph : KatzError
  | keyError : KatzError
  | indexError : KatzError
  | linAlgError : KatzError
  | networkXError : String → String → KatzError
deriving DecidableEq

/-- The dynamic type of the `beta` argument of `katz_centrality`:
a Python `list`, a `dict` (association list here), or any other value,
which the code treats as a scalar to broadcast. -/
inductive Beta where
  | scalar : ℚ → Beta
  | list : List ℚ → Beta
  | mapping : List (Nat × ℚ) → Beta
deriving DecidableEq

/-- Association-list model of a Python `dict` lookup `d[k]`: the value at
the first matching key, `none` when the key is absent (a KeyError). -/
def lookupV : List (Nat × ℚ) → Nat → Option ℚ
  | [], _ => none
  | p :: rest, n => if p.1 = n then some p.2 else lookupV rest n

/-- `dict((nodeid, beta[nodeid]) for nodeid in G.nodes())`: the list cast
of `beta` indexes the list with each node identity; an out-of-range
identity is an IndexError. -/
def castList (l : List ℚ) : List Nat → Except KatzError (List (Nat × ℚ))
  | [] => .ok []
  | n :: rest =>
    match l.get? n with
    | none => .error .indexError
    | some v =>
      match castList l rest with
      | .error e => .error e
      | .ok rest' => .ok ((n, v) :: rest')

/-- The beta-normalisation block of `katz_centrality`: a `list` is cast
by node-identity indexing, a non-`dict` is broadcast with
`dict.fromkeys(G, beta)`, and a `dict` is used as supplied. -/
def castBeta (G : Graph) : Beta → Except KatzError (List (Nat × ℚ))
  | .list l => castList l G.nodes
  | .scalar c => .ok (G.nodes.map (fun n => (n, c)))
  | .mapping m => .ok m

/-- The inner accumulation `for nbr in G[n]: x[n] += xlast[nbr] *
G[n][nbr].get('weight', 1)`, reading only the previous vector `xlast`;
a neighbor absent from `xlast` is a KeyError. -/
def accumNbrs (xlast : List (Nat × ℚ)) (a : ℚ) :
    List (Nat × ℚ) → Except KatzError ℚ
  | [] => .ok a
  | (m, w) :: rest =>
    match lookupV xlast m with
    | none => .error .keyError
    | some v => accumNbrs xlast (a + v * w) rest

/-- One node's update in a pass: accumulate over the adjacency of `n`
starting from 0, then `x[n] = alpha * x[n] + beta[n]`. -/
def nodeUpdate (G : Graph) (alpha : ℚ) (beta xlast : List (Nat × ℚ))
    (n : Nat) : Except KatzError ℚ :=
  match G.adjList n with
  | none => .error .keyError
  | some nbrs =>
    match accumNbrs xlast 0 nbrs with
    | .error e => .error e
    | .ok s =>
      match lookupV beta n with
      | none => .error .keyError
      | some bn => .ok (alpha * s + bn)

/-- `for n in x: ...` over the listed keys, building the new vector in
key order (the new dict `x = dict.fromkeys(xlast, 0)` has the keys of
`xlast` in order). -/
def passGo (G : Graph) (alpha : ℚ) (beta xlast : List (Nat × ℚ)) :
    List Nat → Except KatzError (List (Nat × ℚ))
  | [] => .ok []
  | n :: rest =>
    match nodeUpdate G alpha beta xlast n with
    | .error e => .error e
    | .ok v =>
      match passGo G alpha beta xlast rest with
      | .error e => .error e
      | .ok rest' => .ok ((n, v) :: rest')

/-- One full pass of the iteration: every new score is computed from the
previous vector `xlast` alone. -/
def onePass (G : Graph) (alpha : ℚ) (beta xlast : List (Nat × ℚ)) :
    Except KatzError (List (Nat × ℚ)) :=
  passGo G alpha beta xlast (xlast.map Prod.fst)

/-- `err = sum([abs(x[n] - xlast[n]) for n in x])`; the new vector was
built in the key order of the previous one, so the per-key differences
are the pointwise differences of the two aligned value lists. -/
def errSum (xnew xlast : List (Nat × ℚ)) : ℚ :=
  ((xnew.zip xlast).map (fun pq => |pq.1.2 - pq.2.2|)).sum

/-- The first argument of the non-convergence `nx.NetworkXError`. -/
def convMsg1 : String := "Power iteration failed to converge in "

/-- The second argument of the non-convergence `nx.NetworkXError`.  In
the source the `%`-formatting sits inside the string literal — the
argument is this constant text, the iteration count is never
interpolated. -/
def convMsg2 : String := "%d iterations.\x22%(i+1))"

/-- The `for i in range(max_iter)` loop: run a pass, return the new
vector once the total absolute difference drops strictly below
`nnodes * tol`, and raise the (constant-text) NetworkXError once the
iteration budget is exhausted. -/
def katzLoop (G : Graph) (alpha : ℚ) (beta : List (Nat × ℚ)) (tol : ℚ) :
    Nat → List (Nat × ℚ) → Except KatzError (List (Nat × ℚ))
  | 0, _ => .error (.networkXError convMsg1 convMsg2)
  | fuel + 1, x =>
    match onePass G alpha beta x with
    | .error e => .error e
    | .ok xnew =>
      if errSum xnew x < (G.nodes.length : ℚ) * tol then .ok xnew
      else katzLoop G alpha beta tol fuel xnew

/-- Modelled from the spec: the `@not_implemented_for('multigraph')`
decorator (defined in `networkx/utils/decorators.py`, outside the
sources at hand) rejects a graph reporting multi-edge capability before
the wrapped function body runs — "calling either solver on a graph
reporting multi-edge capability must fail with UnsupportedGraphKind
before touching node data". -/
def multigraphCheck (G : Graph) : Except KatzError Unit :=
  if G.multi then .error .multigraph else .ok ()

/-- The starting vector: `x = dict([(n, 0) for n in G])` when `nstart`
is absent, the caller's `nstart` verbatim otherwise. -/
def startVec (G : Graph) : Option (List (Nat × ℚ)) → List (Nat × ℚ)
  | none => G.nodes.map (fun n => (n, 0))
  | some s => s

/-- `katz_centrality` up to (and excluding) the final normalisation:
multigraph rejection, the empty-graph early return, the start vector
(all zeros, or `nstart` verbatim), the beta cast, and the iteration
loop.  The result is the converged, still unnormalised vector. -/
def katz_raw (G : Graph) (alpha : ℚ) (beta : Beta) (max_iter : Nat)
    (tol : ℚ) (nstart : Option (List (Nat × ℚ))) :
    Except KatzError (List (Nat × ℚ)) :=
  match multigraphCheck G with
  | .error e => .error e
  | .ok _ =>
    if G.nodes.isEmpty then .ok []
    else
      match castBeta G beta with
      | .error e => .error e
      | .ok beta' => katzLoop G alpha beta' tol max_iter (startVec G nstart)

/-- `sum(v**2 for v in x.values())`. -/
def sumSqV (x : List (Nat × ℚ)) : ℚ :=
  (x.map (fun p => p.2 ^ 2)).sum

/-- The scale factor of the final block of `katz_centrality`:
`s = 1.0/sqrt(sum(v**2 for v in x.values()))`, with the
ZeroDivisionError handler turning a zero norm into `s = 1.0`, and
`s = 1` when `normalized` is false.  (Over the rationals the square
root of the sum of squares is zero exactly when that sum is zero.) -/
noncomputable def iterScale (normalized : Bool) (x : List (Nat × ℚ)) : ℝ :=
  if normalized then
    (if sumSqV x = 0 then 1 else 1 / Real.sqrt ((sumSqV x : ℚ) : ℝ))
  else 1

/-- `for n in x: x[n] *= s`. -/
noncomputable def iterNormalize (normalized : Bool) (x : List (Nat × ℚ)) :
    List (Nat × ℝ) :=
  x.map (fun p => (p.1, ((p.2 : ℚ) : ℝ) * iterScale normalized x))

/-- The full iterative solver `katz_centrality`. -/
noncomputable def katz_centrality (G : Graph) (alpha : ℚ) (beta : Beta)
    (max_iter : Nat) (tol : ℚ) (nstart : Option (List (Nat × ℚ)))
    (normalized : Bool) : Except KatzError (List (Nat × ℝ)) :=
  match katz_raw G alpha beta max_iter tol nstart with
  | .error e => .error e
  | .ok x => .ok (iterNormalize normalized x)

/-- Edge-weight lookup feeding the dense matrix: the weight of the edge
`u → v` (`G[u][v].get('weight', 1)` data, already resolved into the
adjacency lists), `0` when the edge is absent. -/
def weightOf (G : Graph) (u v : Nat) : ℚ :=
  (lookupV ((G.adjList u).getD []) v).getD 0

/-- Modelled from the spec: `nx.adj_matrix(G, nodelist=G.nodes())` lives
in `networkx/linalg/graphmatrix.py`, outside the sources at hand — per
the spec, "build the dense adjacency matrix A (n×n, A[i][j] = weight of
edge i→j, 0 if absent)" using the fixed node order. -/
def adjMatrix (G : Graph) :
    Matrix (Fin G.nodes.length) (Fin G.nodes.length) ℚ :=
  Matrix.of fun i j => weightOf G (G.nodes.get i) (G.nodes.get j)

/-- `np.sign`: 1, -1 or 0 by the sign of the argument. -/
def signQ (q : ℚ) : ℚ :=
  if 0 < q then 1 else if q < 0 then -1 else 0

/-- Model of the external `np.linalg.solve(M, b)`: the unique solution
of `M x = b` (by Cramer's rule) when `M` is non-singular, and numpy's
`LinAlgError` when it is singular. -/
def linSolve {n : Nat} (M : Matrix (Fin n) (Fin n) ℚ) (b : Fin n → ℚ) :
    Except KatzError (Fin n → ℚ) :=
  if M.det = 0 then .error .linAlgError
  else .ok fun i => M.adjugate.mulVec b i / M.det

/-- Sum of squares of a value list (`np.linalg.norm` squared). -/
def sumSqL (xs : List ℚ) : ℚ :=
  (xs.map (fun v => v ^ 2)).sum

/-- `katz_centrality_numpy` up to (and excluding) normalisation:
multigraph rejection, the empty-graph early return, the adjacency
matrix in node order, the scalar beta broadcast `np.ones((n,1))*beta`,
and `np.linalg.solve(np.eye(n,n) - (alpha * A), beta)`.  The result is
the solved vector in node order. -/
def katz_numpy_solve (G : Graph) (alpha beta : ℚ) :
    Except KatzError (List ℚ) :=
  match multigraphCheck G with
  | .error e => .error e
  | .ok _ =>
    if G.nodes.isEmpty then .ok []
    else
      match linSolve (1 - alpha • adjMatrix G) (fun _ => beta) with
      | .error e => .error e
      | .ok x => .ok (List.ofFn x)

/-- `np.sign(sum(centrality)) * np.linalg.norm(centrality)`: the signed
Euclidean norm the direct solver divides by. -/
noncomputable def signedNormR (xs : List ℚ) : ℝ :=
  ((signQ xs.sum : ℚ) : ℝ) * Real.sqrt ((sumSqL xs : ℚ) : ℝ)

/-- The full direct solver `katz_centrality_numpy`: after the solve,
`norm` is the signed Euclidean norm when `normalized` is requested and
`1.0` otherwise, and the result is `dict(zip(G, centrality/norm))`. -/
noncomputable def katz_numpy (G : Graph) (alpha beta : ℚ)
    (normalized : Bool) : Except KatzError (List (Nat × ℝ)) :=
  match katz_numpy_solve G alpha beta with
  | .error e => .error e
  | .ok xs =>
    .ok (G.nodes.zip (xs.map
      (fun v => ((v : ℚ) : ℝ) / (if normalized then signedNormR xs else 1))))

/-- A one-node graph (node `0`, no edges). -/
def G1 : Graph := ⟨[0], fun n => if n = 0 then some [] else none, false⟩

/-- Two nodes joined by weight-1 edges in both directions. -/
def Gcyc : Graph :=
  ⟨[0, 1], fun n =>
    if n = 0 then some [(1, 1)]
    else if n = 1 then some [(0, 1)] else none, false⟩

/-- Two nodes, one directed edge `0 → 1` of weight `-20`. -/
def Gd : Graph :=
  ⟨[0, 1], fun n =>
    if n = 0 then some [(1, -20)]
    else if n = 1 then some [] else none, false⟩

/-- Two isolated nodes `0` and `1`. -/
def Giso : Graph := ⟨[0, 1], fun n => if n ≤ 1 then some [] else none, false⟩

/-- Two isolated nodes listed in the order `[1, 0]`. -/
def Gten : Graph := ⟨[1, 0], fun n => if n ≤ 1 then some [] else none, false⟩

/-- A one-node graph reporting multigraph capability. -/
def Gm : Graph := ⟨[0], fun n => if n = 0 then some [] else none, true⟩

/-- The empty graph. -/
def Gempty : Graph := ⟨[], fun _ => none, false⟩

theorem lookupV_isSome_iff (x : List (Nat × ℚ)) (n : Nat) :
    (lookupV x n).isSome = true ↔ n ∈ x.map Prod.fst := by
  induction x with
  | nil => simp [lookupV]
  | cons p rest ih =>
    by_cases h : p.1 = n
    · simp [lookupV, h]
    · simp only [lookupV, if_neg h, List.map_cons, List.mem_cons, ih]
      constructor
      · exact fun hm => Or.inr hm
      · rintro (rfl | hm)
        · exact absurd rfl h
        · exact hm

theorem lookupV_map_const (nodes : List Nat) (c : ℚ) (m : Nat)
    (h : m ∈ nodes) : lookupV (nodes.map (fun n => (n, c))) m = some c := by
  induction nodes with
  | nil => simp at h
  | cons a rest ih =>
    by_cases ha : a = m
    · simp [lookupV, ha]
    · rcases List.mem_cons.mp h with h' | h'
      · exact absurd h'.symm ha
      · simp [lookupV, ha, ih h']

theorem accumNbrs_ok (xlast : List (Nat × ℚ)) (nbrs : List (Nat × ℚ))
    (a : ℚ) (h : ∀ p ∈ nbrs, (lookupV xlast p.1).isSome = true) :
    accumNbrs xlast a nbrs =
      .ok (a + (nbrs.map
        (fun p => (lookupV xlast p.1).getD 0 * p.2)).sum) := by
  induction nbrs generalizing a with
  | nil => simp [accumNbrs]
  | cons p rest ih =>
    obtain ⟨m, w⟩ := p
    obtain ⟨v, hv⟩ :=
      Option.isSome_iff_exists.mp (h ⟨m, w⟩ (List.mem_cons_self _ _))
    simp only [accumNbrs, hv,
      ih (a + v * w) (fun q hq => h q (List.mem_cons_of_mem _ hq)),
      List.map_cons, List.sum_cons, Option.getD_some, Except.ok.injEq]
    ring

theorem nodeUpdate_ok (G : Graph) (alpha : ℚ)
    (beta xlast : List (Nat × ℚ)) (n : Nat)
    (ha : (G.adjList n).isSome = true)
    (hn : ∀ p ∈ (G.adjList n).getD [], (lookupV xlast p.1).isSome = true)
    (hb : (lookupV beta n).isSome = true) :
    nodeUpdate G alpha beta xlast n =
      .ok (alpha * (((G.adjList n).getD []).map
            (fun p => (lookupV xlast p.1).getD 0 * p.2)).sum
          + (lookupV beta n).getD 0) := by
  obtain ⟨nbrs, hnbrs⟩ := Option.isSome_iff_exists.mp ha
  obtain ⟨bn, hbn⟩ := Option.isSome_iff_exists.mp hb
  have hget : (G.adjList n).getD [] = nbrs := by rw [hnbrs]; rfl
  rw [hget] at hn
  simp only [nodeUpdate, hnbrs, accumNbrs_ok xlast nbrs 0 hn, hbn, hget,
    Option.getD_some, zero_add]

theorem passGo_ok (G : Graph) (alpha : ℚ) (beta xlast : List (Nat × ℚ))
    (ns : List Nat)
    (ha : ∀ n ∈ ns, (G.adjList n).isSome = true)
    (hn : ∀ n ∈ ns, ∀ p ∈ (G.adjList n).getD [],
      (lookupV xlast p.1).isSome = true)
    (hb : ∀ n ∈ ns, (lookupV beta n).isSome = true) :
    passGo G alpha beta xlast ns =
      .ok (ns.map (fun n =>
        (n, alpha * (((G.adjList n).getD []).map
              (fun p => (lookupV xlast p.1).getD 0 * p.2)).sum
            + (lookupV beta n).getD 0))) := by
  induction ns with
  | nil => simp [passGo]
  | cons n rest ih =>
    rw [passGo,
      nodeUpdate_ok G alpha beta xlast n (ha n (List.mem_cons_self _ _))
        (hn n (List.mem_cons_self _ _)) (hb n (List.mem_cons_self _ _)),
      ih (fun m hm => ha m (List.mem_cons_of_mem _ hm))
        (fun m hm => hn m (List.mem_cons_of_mem _ hm))
        (fun m hm => hb m (List.mem_cons_of_mem _ hm))]
    simp

theorem passGo_keys (G : Graph) (alpha : ℚ)
    (beta xlast : List (Nat × ℚ)) (ns : List Nat) (y : List (Nat × ℚ))
    (h : passGo G alpha beta xlast ns = .ok y) : y.map Prod.fst = ns := by
  induction ns generalizing y with
  | nil =>
    rw [passGo] at h
    cases h
    rfl
  | cons n rest ih =>
    rw [passGo] at h
    cases hnu : nodeUpdate G alpha beta xlast n with
    | error e => rw [hnu] at h; cases h
    | ok v =>
      rw [hnu] at h
      cases hrest : passGo G alpha beta xlast rest with
      | error e => rw [hrest] at h; cases h
      | ok rest' =>
        rw [hrest] at h
        cases h
        simpa using ih rest' hrest

theorem onePass_keys (G : Graph) (alpha : ℚ)
    (beta xlast y : List (Nat × ℚ)) (h : onePass G alpha beta xlast = .ok y) :
    y.map Prod.fst = xlast.map Prod.fst :=
  passGo_keys G alpha beta xlast (xlast.map Prod.fst) y h

theorem katzLoop_keys (G : Graph) (alpha : ℚ) (beta : List (Nat × ℚ))
    (tol : ℚ) (fuel : Nat) (x y : List (Nat × ℚ))
    (h : katzLoop G alpha beta tol fuel x = .ok y) :
    y.map Prod.fst = x.map Prod.fst := by
  induction fuel generalizing x with
  | zero => rw [katzLoop] at h; cases h
  | succ fuel ih =>
    rw [katzLoop] at h
    cases hp : onePass G alpha beta x with
    | error e => rw [hp] at h; cases h
    | ok xnew =>
      rw [hp] at h
      replace h : (if errSum xnew x < (G.nodes.length : ℚ) * tol
          then Except.ok xnew
          else katzLoop G alpha beta tol fuel xnew) = Except.ok y := h
      by_cases hc : errSum xnew x < (G.nodes.length : ℚ) * tol
      · rw [if_pos hc] at h
        cases h
        exact onePass_keys G alpha beta x y hp
      · rw [if_neg hc] at h
        exact (ih xnew h).trans (onePass_keys G alpha beta x xnew hp)

theorem errSum_self (x : List (Nat × ℚ)) : errSum x x = 0 := by
  induction x with
  | nil => simp [errSum]
  | cons p rest ih => simpa [errSum] using ih

theorem sumSqV_nonneg (x : List (Nat × ℚ)) : 0 ≤ sumSqV x := by
  refine List.sum_nonneg ?_
  intro q hq
  obtain ⟨p, _, rfl⟩ := List.mem_map.mp hq
  positivity

/-- C1: each pass of the iterative solver computes every node's new
score as `alpha` times the sum, over the node's neighbors, of the
previous-iteration score of the neighbor times the connecting edge
weight, plus the node's beta.  The pass `onePass` is a function of the
previous vector `xlast` alone — no score written during the pass is
read back — and the source's incremental accumulation equals the closed
sum stated here. -/
theorem katz_C1_update_rule (G : Graph) (alpha : ℚ)
    (beta xlast : List (Nat × ℚ))
    (ha : ∀ n ∈ xlast.map Prod.fst, (G.adjList n).isSome = true)
    (hn : ∀ n ∈ xlast.map Prod.fst, ∀ p ∈ (G.adjList n).getD [],
      (lookupV xlast p.1).isSome = true)
    (hb : ∀ n ∈ xlast.map Prod.fst, (lookupV beta n).isSome = true) :
    onePass G alpha beta xlast =
      .ok ((xlast.map Prod.fst).map (fun n =>
        (n, alpha * (((G.adjList n).getD []).map
              (fun p => (lookupV xlast p.1).getD 0 * p.2)).sum
            + (lookupV beta n).getD 0))) :=
  passGo_ok G alpha beta xlast (xlast.map Prod.fst) ha hn hb

theorem map_fst_pair (ns : List Nat) (c : ℚ) :
    (ns.map (fun n => (n, c))).map Prod.fst = ns := by
  induction ns with
  | nil => rfl
  | cons a l ih => simp only [List.map_cons, ih]

/-- C6: calling either solver on a graph reporting multi-edge
capability fails with the multigraph rejection error for every
parameter combination; the error is the same constant for every such
graph, so no node or edge data enters the outcome — in the embedding,
as in the source, the check precedes every read of the graph.
(The check itself, `multigraphCheck`, is modelled from the spec: the
`@not_implemented_for('multigraph')` decorator lives outside the
sources at hand.) -/
theorem katz_C6_multigraph_reject (G : Graph) (alpha tol : ℚ)
    (beta : Beta) (max_iter : Nat) (nstart : Option (List (Nat × ℚ)))
    (normalized : Bool) (betaN : ℚ) (hm : G.multi = true) :
    katz_centrality G alpha beta max_iter tol nstart normalized =
        .error .multigraph ∧
      katz_numpy G alpha betaN normalized = .error .multigraph := by
  constructor
  · simp [katz_centrality, katz_raw, multigraphCheck, hm]
  · simp [katz_numpy, katz_numpy_solve, multigraphCheck, hm]

theorem katz_C6_multigraph_reject_witness :
    Gm.multi = true ∧
      (katz_centrality Gm (1/10) (Beta.scalar 1) 1000 (1/1000000) none
          true = .error .multigraph ∧
        katz_numpy Gm (1/10) 1 true = .error .multigraph) :=
  ⟨rfl, katz_C6_multigraph_reject Gm (1/10) (1/1000000) (Beta.scalar 1)
    1000 none true 1 rfl⟩

/-- C7: on a (non-multigraph) graph with zero nodes both solvers return
the empty score mapping: in the embedding, as in the source, the
`len(G) == 0` early return fires before the start vector, the beta
cast, the iteration loop, or any matrix construction. -/
theorem katz_C7_empty_graph (G : Graph) (alpha tol : ℚ) (beta : Beta)
    (max_iter : Nat) (nstart : Option (List (Nat × ℚ)))
    (normalized : Bool) (betaN : ℚ) (hm : G.multi = false)
    (he : G.nodes = []) :
    katz_centrality G alpha beta max_iter tol nstart normalized =
        .ok [] ∧
      katz_numpy G alpha betaN normalized = .ok [] := by
  constructor
  · simp [katz_centrality, katz_raw, multigraphCheck, hm, he,
      iterNormalize]
  · simp [katz_numpy, katz_numpy_solve, multigraphCheck, hm, he]

theorem katz_C7_empty_graph_witness :
    (Gempty.multi = false ∧ Gempty.nodes = []) ∧
      (katz_centrality Gempty (1/10) (Beta.scalar 1) 1000 (1/1000000)
          (some [(3, 1)]) true = .ok [] ∧
        katz_numpy Gempty (1/10) 1 true = .ok []) :=
  ⟨⟨rfl, rfl⟩, katz_C7_empty_graph Gempty (1/10) (1/1000000)
    (Beta.scalar 1) 1000 (some [(3, 1)]) true 1 rfl rfl⟩

/-- C10: with no initial vector and scalar beta 0, on any well-formed
nonempty non-multigraph graph (adjacency defined on every node,
neighbors among the nodes), for every alpha, every `max_iter ≥ 1`,
every positive tolerance and either normalisation setting, the
iterative solver converges on its first pass — the pass reproduces the
all-zero vector, so the error sum is 0 < node_count·tol — and returns
every node mapped to score 0, the zero-norm branch leaving the zeros
unscaled. -/
theorem katz_C10_zero_beta (G : Graph) (alpha tol : ℚ) (max_iter : Nat)
    (normalized : Bool) (hm : G.multi = false) (hne : G.nodes ≠ [])
    (hmi : 1 ≤ max_iter) (htol : 0 < tol)
    (ha : ∀ n ∈ G.nodes, (G.adjList n).isSome = true)
    (hnb : ∀ n ∈ G.nodes, ∀ p ∈ (G.adjList n).getD [], p.1 ∈ G.nodes) :
    katz_centrality G alpha (Beta.scalar 0) max_iter tol none normalized =
      .ok (G.nodes.map (fun n => (n, (0 : ℝ)))) := by
  have hx0 : ∀ m ∈ G.nodes,
      lookupV (G.nodes.map (fun n => (n, (0 : ℚ)))) m = some 0 :=
    fun m hm' => lookupV_map_const G.nodes 0 m hm'
  have hkeys : (G.nodes.map (fun n => (n, (0 : ℚ)))).map Prod.fst =
      G.nodes := map_fst_pair G.nodes 0
  have hpass : onePass G alpha (G.nodes.map (fun n => (n, (0 : ℚ))))
      (G.nodes.map (fun n => (n, (0 : ℚ)))) =
      .ok (G.nodes.map (fun n => (n, (0 : ℚ)))) := by
    rw [onePass, hkeys,
      passGo_ok G alpha _ _ G.nodes ha
        (fun n hn p hp => by rw [lookupV_isSome_iff, hkeys]; exact hnb n hn p hp)
        (fun n hn => by rw [lookupV_isSome_iff, hkeys]; exact hn)]
    refine congrArg Except.ok (List.map_congr_left ?_)
    intro n hn
    have hsum : (((G.adjList n).getD []).map
        (fun p => (lookupV (G.nodes.map (fun n => (n, (0 : ℚ)))) p.1).getD 0
          * p.2)).sum = 0 := by
      refine List.sum_eq_zero ?_
      intro q hq
      obtain ⟨p, hp, rfl⟩ := List.mem_map.mp hq
      rw [hx0 p.1 (hnb n hn p hp)]
      simp
    rw [hsum, hx0 n hn]
    simp
  have hloop : ∀ fuel,
      katzLoop G alpha (G.nodes.map (fun n => (n, (0 : ℚ)))) tol (fuel + 1)
        (G.nodes.map (fun n => (n, (0 : ℚ)))) =
      .ok (G.nodes.map (fun n => (n, (0 : ℚ)))) := by
    intro fuel
    rw [katzLoop, hpass]
    have hpos : (0 : ℚ) < (G.nodes.length : ℚ) * tol := by
      have : 0 < G.nodes.length := List.length_pos.mpr hne
      positivity
    simp only [errSum_self, hpos, if_pos]
  obtain ⟨k, rfl⟩ : ∃ k, max_iter = k + 1 :=
    ⟨max_iter - 1, (Nat.succ_pred_eq_of_pos hmi).symm⟩
  have hraw : katz_raw G alpha (Beta.scalar 0) (k + 1) tol none =
      .ok (G.nodes.map (fun n => (n, (0 : ℚ)))) := by
    rw [katz_raw]
    have hmc : multigraphCheck G = .ok () := by
      simp [multigraphCheck, hm]
    rw [hmc]
    have hie : G.nodes.isEmpty = false := by
      simpa using hne
    simp only [hie, Bool.false_eq_true, if_false, castBeta]
    exact hloop k
  have hsq : sumSqV (G.nodes.map (fun n => (n, (0 : ℚ)))) = 0 := by
    refine List.sum_eq_zero ?_
    intro q hq
    obtain ⟨p, hp, rfl⟩ := List.mem_map.mp hq
    obtain ⟨n, _, rfl⟩ := List.mem_map.mp hp
    simp
  have hscale : iterScale normalized (G.nodes.map (fun n => (n, (0 : ℚ)))) = 1 := by
    simp [iterScale, hsq]
  simp only [katz_centrality, hraw, iterNormalize, hscale, List.map_map]
  refine congrArg Except.ok (List.map_congr_left ?_)
  intro n _
  simp

theorem katz_C10_zero_beta_witness :
    (G1.multi = false ∧ G1.nodes ≠ [] ∧ (1 : Nat) ≤ 1 ∧ (0 : ℚ) < 1) ∧
      katz_centrality G1 7 (Beta.scalar 0) 1 1 none true =
        .ok (G1.nodes.map (fun n => (n, (0 : ℝ)))) :=
  ⟨⟨rfl, by decide, le_refl 1, by norm_num⟩,
    katz_C10_zero_beta G1 7 1 1 true rfl (by decide) (le_refl 1)
      (by norm_num) (by decide) (by decide)⟩

theorem katz_C1_update_rule_witness :
    onePass Gcyc 2 [(0, 10), (1, 20)] [(0, 1), (1, 3)] =
      .ok (([((0 : Nat), (1 : ℚ)), (1, 3)].map Prod.fst).map (fun n =>
        (n, 2 * (((Gcyc.adjList n).getD []).map
              (fun p => (lookupV [(0, 1), (1, 3)] p.1).getD 0 * p.2)).sum
            + (lookupV [(0, 10), (1, 20)] n).getD 0))) :=
  katz_C1_update_rule Gcyc 2 [(0, 10), (1, 20)] [(0, 1), (1, 3)]
    (by decide) (by decide) (by decide)

theorem castList_ok (l : List ℚ) (ns : List Nat)
    (hin : ∀ n ∈ ns, n < l.length) :
    castList l ns = .ok (ns.map (fun n => (n, l.getD n 0))) := by
  induction ns with
  | nil => simp [castList]
  | cons n rest ih =>
    have hn := hin n (List.mem_cons_self _ _)
    obtain ⟨v, hv⟩ : ∃ v, l.get? n = some v :=
      ⟨l.get ⟨n, hn⟩, List.get?_eq_get hn⟩
    have hgetD : l.getD n 0 = v := by
      rw [List.getD_eq_getD_get? l 0 n, hv]
      rfl
    simp only [castList, hv,
      ih (fun m hm => hin m (List.mem_cons_of_mem _ hm)), List.map_cons,
      hgetD]

/-- The beta conversion the spec describes (for comparison with the
code's `castList`): the sequence aligned positionally with the node
order, the k-th element becoming the beta value of the k-th node. -/
def betaPositional (nodes : List Nat) (l : List ℚ) : List (Nat × ℚ) :=
  nodes.zip l

/-- C5 (counterexample): with the node order `[1, 0]` and the sequence
`[5, 7]`, the code maps node 1 to element number 1 of the sequence (7),
whereas positional alignment maps the 0-th node (node 1) to the 0-th
element (5): the produced mapping differs from the positionally aligned
one. -/
theorem katz_C5_counterexample :
    castBeta Gten (Beta.list [5, 7]) = .ok [(1, 7), (0, 5)] ∧
      betaPositional Gten.nodes [5, 7] = [(1, 5), (0, 7)] ∧
      ([((1 : Nat), (7 : ℚ)), (0, 5)] : List (Nat × ℚ)) ≠
        [(1, 5), (0, 7)] :=
  ⟨by decide, by decide, by decide⟩

/-- C5 (amended): in the iterative solver a beta supplied as a list is
converted to a per-node mapping by indexing the list with each node's
own identity — node `n` receives element number `n` of the list, which
coincides with positional alignment only when the node order is
`0, 1, ..., n-1` — failing with an IndexError when a node identity is
out of range; a scalar beta is broadcast to every node; anything that
is neither a list nor a scalar must already be a per-node mapping and
is used as supplied. -/
theorem katz_C5_beta_cast (G : Graph) (l : List ℚ) (c : ℚ)
    (m : List (Nat × ℚ)) (hin : ∀ n ∈ G.nodes, n < l.length) :
    castBeta G (Beta.list l) =
        .ok (G.nodes.map (fun n => (n, l.getD n 0))) ∧
      castBeta G (Beta.scalar c) = .ok (G.nodes.map (fun n => (n, c))) ∧
      castBeta G (Beta.mapping m) = .ok m :=
  ⟨castList_ok l G.nodes hin, rfl, rfl⟩

theorem katz_C5_beta_cast_witness :
    (∀ n ∈ Gten.nodes, n < [(5 : ℚ), 7].length) ∧
      (castBeta Gten (Beta.list [5, 7]) =
          .ok (Gten.nodes.map (fun n => (n, [(5 : ℚ), 7].getD n 0))) ∧
        castBeta Gten (Beta.scalar 3) =
          .ok (Gten.nodes.map (fun n => (n, (3 : ℚ)))) ∧
        castBeta Gten (Beta.mapping [(0, 2)]) = .ok [(0, 2)]) :=
  ⟨by decide, katz_C5_beta_cast Gten [5, 7] 3 [(0, 2)] (by decide)⟩

theorem iterNormalize_keys (normalized : Bool) (x : List (Nat × ℚ)) :
    (iterNormalize normalized x).map Prod.fst = x.map Prod.fst := by
  simp only [iterNormalize, List.map_map]
  exact List.map_congr_left (fun a _ => rfl)

theorem katz_raw_keys (G : Graph) (alpha tol : ℚ) (beta : Beta)
    (max_iter : Nat) (nstart : Option (List (Nat × ℚ)))
    (x : List (Nat × ℚ))
    (h : katz_raw G alpha beta max_iter tol nstart = .ok x) :
    x.map Prod.fst =
      if G.nodes.isEmpty then []
      else match nstart with
        | none => G.nodes
        | some s => s.map Prod.fst := by
  rw [katz_raw.eq_def] at h
  split at h
  next e heq => cases h
  next u heq =>
    split at h
    next hie =>
      cases h
      rw [if_pos hie]
      rfl
    next hie =>
      rw [if_neg hie]
      split at h
      next e heq2 => cases h
      next beta' heq2 =>
        have hk := katzLoop_keys G alpha beta' tol max_iter _ x h
        cases nstart with
        | none => rw [hk]; exact map_fst_pair G.nodes 0
        | some s => exact hk

theorem katz_numpy_solve_length (G : Graph) (alpha betaN : ℚ)
    (xs : List ℚ) (h : katz_numpy_solve G alpha betaN = .ok xs) :
    xs.length = G.nodes.length := by
  rw [katz_numpy_solve] at h
  cases hmc : multigraphCheck G with
  | error e => rw [hmc] at h; cases h
  | ok u =>
    rw [hmc] at h
    replace h : (if G.nodes.isEmpty then Except.ok ([] : List ℚ)
        else match linSolve (1 - alpha • adjMatrix G) (fun _ => betaN) with
          | .error e => .error e
          | .ok x => .ok (List.ofFn x)) = Except.ok xs := h
    by_cases hie : G.nodes.isEmpty
    · rw [if_pos hie] at h
      cases h
      simp [List.isEmpty_iff.mp hie]
    · rw [if_neg hie] at h
      cases hls : linSolve (1 - alpha • adjMatrix G) (fun _ => betaN) with
      | error e => rw [hls] at h; cases h
      | ok xf =>
        rw [hls] at h
        replace h : Except.ok (List.ofFn xf) = Except.ok xs := h
        cases h
        exact List.length_ofFn xf

/-- C9 (amended): every successful call returns one entry per key of the
vector it iterated on: for the direct solver, and for the iterative
solver when no initial vector is supplied, that is exactly one entry
per graph node; when an initial vector is supplied the result carries
exactly the initial vector's keys — the node set precisely when the
initial vector covers precisely the nodes, but an initial vector whose
keys form a proper subset of the nodes can still converge and then the
returned mapping misses the other nodes. -/
theorem katz_C9_result_keys (G : Graph) (alpha tol : ℚ) (beta : Beta)
    (max_iter : Nat) (nstart : Option (List (Nat × ℚ)))
    (normalized : Bool) (betaN : ℚ) :
    (∀ r, katz_centrality G alpha beta max_iter tol nstart normalized =
        .ok r →
      r.map Prod.fst =
        if G.nodes.isEmpty then []
        else match nstart with
          | none => G.nodes
          | some s => s.map Prod.fst) ∧
    (∀ r, katz_numpy G alpha betaN normalized = .ok r →
      r.map Prod.fst = G.nodes) := by
  constructor
  · intro r h
    rw [katz_centrality] at h
    cases hraw : katz_raw G alpha beta max_iter tol nstart with
    | error e => rw [hraw] at h; cases h
    | ok x =>
      rw [hraw] at h
      replace h : Except.ok (iterNormalize normalized x) = Except.ok r := h
      cases h
      rw [iterNormalize_keys]
      exact katz_raw_keys G alpha tol beta max_iter nstart x hraw
  · intro r h
    rw [katz_numpy] at h
    cases hs : katz_numpy_solve G alpha betaN with
    | error e => rw [hs] at h; cases h
    | ok xs =>
      rw [hs] at h
      replace h : Except.ok (G.nodes.zip (xs.map
          (fun v => ((v : ℚ) : ℝ) /
            (if normalized then signedNormR xs else 1)))) =
          Except.ok r := h
      cases h
      refine List.map_fst_zip _ _ ?_
      rw [List.length_map, katz_numpy_solve_length G alpha betaN xs hs]

theorem katz_C9_result_keys_witness :
    katz_centrality G1 (1/2) (Beta.scalar 1) 2 1 none false =
        .ok (iterNormalize false [(0, 1)]) ∧
      (iterNormalize false [(0, 1)]).map Prod.fst =
        (if G1.nodes.isEmpty then [] else G1.nodes) := by
  have hraw : katz_raw G1 (1/2) (Beta.scalar 1) 2 1 none = .ok [(0, 1)] := by
    norm_num [katz_raw, multigraphCheck, castBeta, katzLoop, onePass,
      passGo, nodeUpdate, accumNbrs, lookupV, errSum, G1]
  have hfull : katz_centrality G1 (1/2) (Beta.scalar 1) 2 1 none false =
      .ok (iterNormalize false [(0, 1)]) := by
    rw [katz_centrality, hraw]
  exact ⟨hfull,
    (katz_C9_result_keys G1 (1/2) 1 (Beta.scalar 1) 2 none false 0).1 _ hfull⟩

/-- C9 (counterexample): on the two-isolated-node graph `Giso`, the
call with the initial vector `{0: 0}` (covering only node 0) succeeds —
it converges on the first pass — and returns a mapping whose key list
is `[0]`, missing node 1 of the graph. -/
theorem katz_C9_counterexample :
    katz_centrality Giso (1/2) (Beta.scalar 1) 10 1 (some [(0, 0)])
        false = .ok (iterNormalize false [(0, 1)]) ∧
      (iterNormalize false [(0, 1)]).map Prod.fst ≠ Giso.nodes := by
  have hraw : katz_raw Giso (1/2) (Beta.scalar 1) 10 1 (some [(0, 0)]) =
      .ok [(0, 1)] := by
    norm_num [katz_raw, multigraphCheck, castBeta, katzLoop, onePass,
      passGo, nodeUpdate, accumNbrs, lookupV, errSum, Giso]
  constructor
  · rw [katz_centrality, hraw]
  · rw [iterNormalize_keys]
    decide

/-- C3 (code bug, supporting evaluation): on the two-node weight-1
cycle with `alpha = 2` the iteration diverges, and with budgets of 3
and of 5 iterations the solver raises the identical NetworkXError: its
two arguments are the constants `convMsg1` and `convMsg2` — the second
being the literal text `%d iterations."%(i+1))`, the `%`-formatting
sitting inside the string literal in the source — so the number of
iterations attempted (3 versus 5 here) is not reported, and no partial
result is returned. -/
theorem katz_C3_nonconvergence_message :
    katz_centrality Gcyc 2 (Beta.scalar 1) 3 (1/1000000) none true =
        .error (.networkXError convMsg1 convMsg2) ∧
      katz_centrality Gcyc 2 (Beta.scalar 1) 5 (1/1000000) none true =
        .error (.networkXError convMsg1 convMsg2) := by
  have h3 : katz_raw Gcyc 2 (Beta.scalar 1) 3 (1/1000000) none =
      .error (.networkXError convMsg1 convMsg2) := by
    norm_num [katz_raw, multigraphCheck, castBeta, startVec, katzLoop,
      onePass, passGo, nodeUpdate, accumNbrs, lookupV, errSum, Gcyc]
  have h5 : katz_raw Gcyc 2 (Beta.scalar 1) 5 (1/1000000) none =
      .error (.networkXError convMsg1 convMsg2) := by
    norm_num [katz_raw, multigraphCheck, castBeta, startVec, katzLoop,
      onePass, passGo, nodeUpdate, accumNbrs, lookupV, errSum, Gcyc]
  exact ⟨by rw [katz_centrality, h3], by rw [katz_centrality, h5]⟩

/-- The Euclidean (L2) norm of a returned score mapping's values — the
spec's ‖x‖ in the normalisation round-trip property. -/
noncomputable def pairsL2norm (r : List (Nat × ℝ)) : ℝ :=
  Real.sqrt ((r.map (fun p => p.2 ^ 2)).sum)

/-- The signed norm of a returned score mapping's values: the sign of
the value sum times the Euclidean norm — what the direct solver
divides by. -/
noncomputable def pairsSignedNorm (r : List (Nat × ℝ)) : ℝ :=
  Real.sign ((r.map (fun p => p.2)).sum) * pairsL2norm r

theorem linSolve_sol {n : Nat} (M : Matrix (Fin n) (Fin n) ℚ)
    (b : Fin n → ℚ) (hdet : M.det ≠ 0) :
    linSolve M b = .ok (fun i => M.adjugate.mulVec b i / M.det) ∧
      M.mulVec (fun i => M.adjugate.mulVec b i / M.det) = b := by
  refine ⟨by simp [linSolve, hdet], ?_⟩
  have h1 : (fun i => M.adjugate.mulVec b i / M.det) =
      M.det⁻¹ • M.adjugate.mulVec b := by
    funext i
    simp [div_eq_inv_mul]
  rw [h1, Matrix.mulVec_smul, Matrix.mulVec_mulVec, Matrix.mul_adjugate,
    Matrix.smul_mulVec_assoc, Matrix.one_mulVec, smul_smul,
    inv_mul_cancel₀ hdet, one_smul]

theorem katz_numpy_solve_eq (G : Graph) (alpha betaN : ℚ)
    (hm : G.multi = false) (hne : G.nodes ≠ [])
    (hdet : (1 - alpha • adjMatrix G).det ≠ 0) :
    katz_numpy_solve G alpha betaN =
      .ok (List.ofFn (fun i =>
        (1 - alpha • adjMatrix G).adjugate.mulVec (fun _ => betaN) i /
          (1 - alpha • adjMatrix G).det)) := by
  have hie : G.nodes.isEmpty = false := by
    cases h : G.nodes.isEmpty
    · rfl
    · exact absurd (List.isEmpty_iff.mp h) hne
  rw [katz_numpy_solve,
    show multigraphCheck G = Except.ok () from by simp [multigraphCheck, hm],
    hie, (linSolve_sol (1 - alpha • adjMatrix G) (fun _ => betaN) hdet).1]
  rfl

theorem katz_numpy_eq (G : Graph) (alpha betaN : ℚ) (normalized : Bool)
    (xs : List ℚ) (hs : katz_numpy_solve G alpha betaN = .ok xs) :
    katz_numpy G alpha betaN normalized =
      .ok (G.nodes.zip (xs.map (fun v => ((v : ℚ) : ℝ) /
        (if normalized then signedNormR xs else 1)))) := by
  rw [katz_numpy, hs]

theorem iterNormalize_false_eq (x : List (Nat × ℚ)) :
    iterNormalize false x = x.map (fun p => (p.1, ((p.2 : ℚ) : ℝ))) := by
  unfold iterNormalize iterScale
  simp

theorem pairs_sumSq_cast (x : List (Nat × ℚ)) :
    ((x.map (fun p => (p.1, ((p.2 : ℚ) : ℝ)))).map
        (fun p => p.2 ^ 2)).sum = ((sumSqV x : ℚ) : ℝ) := by
  induction x with
  | nil => simp [sumSqV]
  | cons p t ih =>
    have hs : sumSqV (p :: t) = p.2 ^ 2 + sumSqV t := by
      simp [sumSqV]
    rw [List.map_cons, List.map_cons, List.sum_cons, ih, hs]
    push_cast
    ring

theorem real_sign_ratCast (q : ℚ) :
    Real.sign ((q : ℚ) : ℝ) = ((signQ q : ℚ) : ℝ) := by
  rcases lt_trichotomy q 0 with h | h | h
  · rw [Real.sign_of_neg (by exact_mod_cast h)]
    simp [signQ, h, asymm h]
  · rw [h]
    simp [Real.sign_zero, signQ]
  · rw [Real.sign_of_pos (by exact_mod_cast h)]
    simp [signQ, h]

theorem pairs_values_sum (ns : List Nat) (xs : List ℚ)
    (h : xs.length = ns.length) :
    ((ns.zip (xs.map (fun v => ((v : ℚ) : ℝ)))).map
        (fun p => p.2)).sum = ((xs.sum : ℚ) : ℝ) ∧
      ((ns.zip (xs.map (fun v => ((v : ℚ) : ℝ)))).map
        (fun p => p.2 ^ 2)).sum = ((sumSqL xs : ℚ) : ℝ) := by
  induction ns generalizing xs with
  | nil =>
    cases xs with
    | nil => simp [sumSqL]
    | cons q qs => simp at h
  | cons a l ih =>
    cases xs with
    | nil => simp at h
    | cons q qs =>
      have hh : qs.length = l.length := by simpa using h
      obtain ⟨ih1, ih2⟩ := ih qs hh
      constructor
      · rw [List.map_cons, List.zip_cons_cons, List.map_cons,
          List.sum_cons, ih1]
        push_cast
        simp
      · have hs : sumSqL (q :: qs) = q ^ 2 + sumSqL qs := by
          simp [sumSqL]
        rw [List.map_cons, List.zip_cons_cons, List.map_cons,
          List.sum_cons, ih2, hs]
        push_cast
        ring

theorem pairsSignedNorm_zip (ns : List Nat) (xs : List ℚ)
    (h : xs.length = ns.length) :
    pairsSignedNorm (ns.zip (xs.map (fun v => ((v : ℚ) : ℝ)))) =
      signedNormR xs := by
  obtain ⟨h1, h2⟩ := pairs_values_sum ns xs h
  unfold pairsSignedNorm pairsL2norm signedNormR
  rw [h1, h2, real_sign_ratCast]

theorem zip_map_div (ns : List Nat) (xs : List ℚ) (c : ℝ) :
    (ns.zip (xs.map (fun v => ((v : ℚ) : ℝ)))).map
        (fun p => (p.1, p.2 / c)) =
      ns.zip (xs.map (fun v => ((v : ℚ) : ℝ) / c)) := by
  induction ns generalizing xs with
  | nil => simp
  | cons a l ih =>
    cases xs with
    | nil => simp
    | cons q qs =>
      simp only [List.map_cons, List.zip_cons_cons]
      rw [ih qs]

/-- C2: for every nonempty non-multigraph graph whose system matrix
`I - alpha·A` is non-singular, the direct solver fixes the total node
order `G.nodes`, builds the dense adjacency matrix `adjMatrix G` in that
order, and returns that node order zipped with a vector `x` solving the
linear system `(I - alpha·A) x = beta`, each entry divided by the
signed L2 norm of `x` (the sign of the sum of all entries times the
Euclidean norm) when normalisation is requested, and by the scale
factor 1 when `normalize` is false. -/
theorem katz_C2_direct_solver (G : Graph) (alpha betaN : ℚ)
    (normalized : Bool) (hm : G.multi = false) (hne : G.nodes ≠ [])
    (hdet : (1 - alpha • adjMatrix G).det ≠ 0) :
    ∃ x : Fin G.nodes.length → ℚ,
      (1 - alpha • adjMatrix G).mulVec x = (fun _ => betaN) ∧
        katz_numpy G alpha betaN normalized =
          .ok (G.nodes.zip ((List.ofFn x).map (fun v => ((v : ℚ) : ℝ) /
            (if normalized then signedNormR (List.ofFn x) else 1)))) := by
  refine ⟨fun i =>
      (1 - alpha • adjMatrix G).adjugate.mulVec (fun _ => betaN) i /
        (1 - alpha • adjMatrix G).det,
    (linSolve_sol (1 - alpha • adjMatrix G) (fun _ => betaN) hdet).2, ?_⟩
  exact katz_numpy_eq G alpha betaN normalized _
    (katz_numpy_solve_eq G alpha betaN hm hne hdet)

theorem adjM_G1 : (1 - (1/10 : ℚ) • adjMatrix G1) = !![(1 : ℚ)] := by
  ext i j
  fin_cases i <;> fin_cases j <;>
    norm_num [adjMatrix, weightOf, G1, lookupV, Matrix.sub_apply,
      Matrix.smul_apply, Matrix.one_apply]

theorem detG1 : (1 - (1/10 : ℚ) • adjMatrix G1).det ≠ 0 := by
  rw [adjM_G1, Matrix.det_fin_one]
  norm_num

theorem katz_C2_direct_solver_witness :
    (G1.multi = false ∧ G1.nodes ≠ [] ∧
        (1 - (1/10 : ℚ) • adjMatrix G1).det ≠ 0) ∧
      ∃ x : Fin G1.nodes.length → ℚ,
        (1 - (1/10 : ℚ) • adjMatrix G1).mulVec x = (fun _ => (1 : ℚ)) ∧
          katz_numpy G1 (1/10) 1 false =
            .ok (G1.nodes.zip ((List.ofFn x).map (fun v => ((v : ℚ) : ℝ) /
              (if false then signedNormR (List.ofFn x) else 1)))) :=
  ⟨⟨rfl, by decide, detG1⟩,
    katz_C2_direct_solver G1 (1/10) 1 false rfl (by decide) detG1⟩

theorem solveval_G1 (betaN : ℚ) (f : Fin 1 → ℚ)
    (hf : f = fun i => (!![(1 : ℚ)]).adjugate.mulVec (fun _ => betaN) i /
      (!![(1 : ℚ)]).det) :
    List.ofFn f = [betaN] := by
  subst hf
  simp [Matrix.adjugate_fin_one, Matrix.det_fin_one, Matrix.one_mulVec,
    List.ofFn_succ]

theorem katz_numpy_solve_G1 (betaN : ℚ) :
    katz_numpy_solve G1 (1/10) betaN = .ok [betaN] := by
  rw [katz_numpy_solve_eq G1 (1/10) betaN rfl (by decide) detG1]
  congr 1
  exact solveval_G1 betaN _ (by rw [← adjM_G1]; rfl)

theorem adjM_Gd :
    (1 - (1/10 : ℚ) • adjMatrix Gd) = !![(1 : ℚ), 2; 0, 1] := by
  ext i j
  fin_cases i <;> fin_cases j <;>
    norm_num [adjMatrix, weightOf, Gd, lookupV, Matrix.sub_apply,
      Matrix.smul_apply, Matrix.one_apply]

theorem detGd : (1 - (1/10 : ℚ) • adjMatrix Gd).det ≠ 0 := by
  rw [adjM_Gd, Matrix.det_fin_two_of]
  norm_num

theorem solveval_Gd (f : Fin 2 → ℚ)
    (hf : f = fun i => (!![(1 : ℚ), 2; 0, 1]).adjugate.mulVec
      (fun _ => (1 : ℚ)) i / (!![(1 : ℚ), 2; 0, 1]).det) :
    List.ofFn f = [-1, 1] := by
  subst hf
  have hadj : (!![(1 : ℚ), 2; 0, 1]).adjugate = !![(1 : ℚ), -2; 0, 1] := by
    rw [Matrix.adjugate_fin_two]
    ext i j
    fin_cases i <;> fin_cases j <;> norm_num
  norm_num [hadj, Matrix.det_fin_two_of, List.ofFn_succ, Matrix.mulVec,
    Matrix.dotProduct, Fin.sum_univ_two, Matrix.cons_val_zero,
    Matrix.cons_val_one, Matrix.head_cons]

theorem katz_numpy_solve_Gd :
    katz_numpy_solve Gd (1/10) 1 = .ok [-1, 1] := by
  rw [katz_numpy_solve_eq Gd (1/10) 1 rfl (by decide) detGd]
  congr 1
  exact solveval_Gd _ (by rw [← adjM_Gd]; rfl)

/-- C8 (amended): normalisation round-trip.  For the iterative solver
the claim holds as stated: when both calls succeed (they converge to
the same vector `x`), the normalized result equals the unnormalized one
divided entry-wise by its Euclidean norm, and equals it unchanged when
that norm is zero.  For the direct solver the divisor is the *signed*
L2 norm of the unnormalized result — the sign of the entry sum times
the Euclidean norm — not the Euclidean norm itself. -/
theorem katz_C8_normalization_roundtrip :
    (∀ (G : Graph) (alpha tol : ℚ) (beta : Beta) (max_iter : Nat)
        (nstart : Option (List (Nat × ℚ))) (x : List (Nat × ℚ)),
      katz_raw G alpha beta max_iter tol nstart = .ok x →
      katz_centrality G alpha beta max_iter tol nstart false =
          .ok (iterNormalize false x) ∧
        katz_centrality G alpha beta max_iter tol nstart true =
          .ok (iterNormalize true x) ∧
        (pairsL2norm (iterNormalize false x) = 0 →
          iterNormalize true x = iterNormalize false x) ∧
        (pairsL2norm (iterNormalize false x) ≠ 0 →
          iterNormalize true x = (iterNormalize false x).map
            (fun p => (p.1, p.2 / pairsL2norm (iterNormalize false x))))) ∧
    (∀ (G : Graph) (alpha betaN : ℚ) (xs : List ℚ),
      katz_numpy_solve G alpha betaN = .ok xs →
      katz_numpy G alpha betaN false =
          .ok (G.nodes.zip (xs.map (fun v => ((v : ℚ) : ℝ)))) ∧
        katz_numpy G alpha betaN true =
          .ok ((G.nodes.zip (xs.map (fun v => ((v : ℚ) : ℝ)))).map
            (fun p => (p.1, p.2 / pairsSignedNorm
              (G.nodes.zip (xs.map (fun v => ((v : ℚ) : ℝ)))))))) := by
  constructor
  · intro G alpha tol beta max_iter nstart x hraw
    have hnorm : pairsL2norm (iterNormalize false x) =
        Real.sqrt ((sumSqV x : ℚ) : ℝ) := by
      rw [iterNormalize_false_eq, pairsL2norm, pairs_sumSq_cast]
    refine ⟨by rw [katz_centrality, hraw], by rw [katz_centrality, hraw],
      ?_, ?_⟩
    · intro h0
      have hc : ((sumSqV x : ℚ) : ℝ) = 0 := by
        rw [hnorm] at h0
        have hnn : (0 : ℝ) ≤ ((sumSqV x : ℚ) : ℝ) := by
          exact_mod_cast sumSqV_nonneg x
        exact (Real.sqrt_eq_zero hnn).mp h0
      have hq : sumSqV x = 0 := by exact_mod_cast hc
      have h1 : iterScale true x = 1 := by simp [iterScale, hq]
      have h2 : iterScale false x = 1 := by simp [iterScale]
      unfold iterNormalize
      rw [h1, h2]
    · intro hne0
      have hq : sumSqV x ≠ 0 := by
        intro hq
        apply hne0
        rw [hnorm, hq]
        simp
      have hscale : iterScale true x =
          1 / Real.sqrt ((sumSqV x : ℚ) : ℝ) := by
        simp [iterScale, hq]
      rw [hnorm, iterNormalize_false_eq, List.map_map]
      unfold iterNormalize
      rw [hscale]
      refine List.map_congr_left ?_
      intro p hp
      simp [div_eq_mul_inv]
  · intro G alpha betaN xs hs
    have hlen : xs.length = G.nodes.length :=
      katz_numpy_solve_length G alpha betaN xs hs
    constructor
    · rw [katz_numpy_eq G alpha betaN false xs hs]
      refine congrArg Except.ok (congrArg (G.nodes.zip ·) ?_)
      refine List.map_congr_left ?_
      intro v hv
      simp
    · rw [katz_numpy_eq G alpha betaN true xs hs,
        pairsSignedNorm_zip G.nodes xs hlen, zip_map_div]
      refine congrArg Except.ok (congrArg (G.nodes.zip ·) ?_)
      refine List.map_congr_left ?_
      intro v hv
      simp

theorem katz_C8_normalization_roundtrip_witness :
    katz_raw G1 (1/2) (Beta.scalar 1) 2 1 none = .ok [(0, 1)] ∧
      (katz_centrality G1 (1/2) (Beta.scalar 1) 2 1 none false =
          .ok (iterNormalize false [(0, 1)]) ∧
        katz_centrality G1 (1/2) (Beta.scalar 1) 2 1 none true =
          .ok (iterNormalize true [(0, 1)]) ∧
        (pairsL2norm (iterNormalize false [(0, 1)]) = 0 →
          iterNormalize true [(0, 1)] = iterNormalize false [(0, 1)]) ∧
        (pairsL2norm (iterNormalize false [(0, 1)]) ≠ 0 →
          iterNormalize true [(0, 1)] = (iterNormalize false [(0, 1)]).map
            (fun p => (p.1, p.2 /
              pairsL2norm (iterNormalize false [(0, 1)]))))) := by
  have hraw : katz_raw G1 (1/2) (Beta.scalar 1) 2 1 none = .ok [(0, 1)] := by
    norm_num [katz_raw, multigraphCheck, castBeta, startVec, katzLoop,
      onePass, passGo, nodeUpdate, accumNbrs, lookupV, errSum, G1]
  exact ⟨hraw, katz_C8_normalization_roundtrip.1 G1 (1/2) 1 (Beta.scalar 1)
    2 none [(0, 1)] hraw⟩

/-- C8 (counterexample): on the one-node graph with `beta = -1` the
direct solver's unnormalized result is `{0: -1}`, whose Euclidean norm
is 1, so the claim predicts the normalized result `{0: -1/1} = {0: -1}`;
the solver actually divides by the signed norm `sign(-1)·1 = -1` and
returns `{0: 1}`. -/
theorem katz_C8_counterexample :
    katz_numpy G1 (1/10) (-1) false = .ok [(0, (-1 : ℝ))] ∧
      katz_numpy G1 (1/10) (-1) true = .ok [(0, (1 : ℝ))] ∧
      pairsL2norm [((0 : Nat), (-1 : ℝ))] = 1 ∧
      (1 : ℝ) ≠ (-1 : ℝ) / 1 := by
  have hs := katz_numpy_solve_G1 (-1)
  refine ⟨?_, ?_, ?_, by norm_num⟩
  · rw [katz_numpy_eq G1 (1/10) (-1) false [-1] hs]
    norm_num [G1]
  · rw [katz_numpy_eq G1 (1/10) (-1) true [-1] hs]
    have hsn : signedNormR [(-1 : ℚ)] = -1 := by
      norm_num [signedNormR, signQ, sumSqL, Real.sqrt_one]
    norm_num [hsn, G1]
  · norm_num [pairsL2norm, Real.sqrt_one]

/-- C4 (amended): in the iterative solver a zero norm of the converged
vector is absorbed: the scale factor becomes 1 and both the normalized
and the unnormalized call return the vector unscaled, with no error.
The direct solver has no such guard: with normalisation requested it
divides every entry by the signed norm unconditionally, whether or not
that norm is zero (shown zero-norm-concretely by the counterexample). -/
theorem katz_C4_zero_norm :
    (∀ (G : Graph) (alpha tol : ℚ) (beta : Beta) (max_iter : Nat)
        (nstart : Option (List (Nat × ℚ))) (x : List (Nat × ℚ)),
      katz_raw G alpha beta max_iter tol nstart = .ok x → sumSqV x = 0 →
      katz_centrality G alpha beta max_iter tol nstart true =
          .ok (x.map (fun p => (p.1, ((p.2 : ℚ) : ℝ)))) ∧
        katz_centrality G alpha beta max_iter tol nstart false =
          .ok (x.map (fun p => (p.1, ((p.2 : ℚ) : ℝ))))) ∧
    (∀ (G : Graph) (alpha betaN : ℚ) (xs : List ℚ),
      katz_numpy_solve G alpha betaN = .ok xs →
      katz_numpy G alpha betaN true =
        .ok (G.nodes.zip (xs.map
          (fun v => ((v : ℚ) : ℝ) / signedNormR xs)))) := by
  constructor
  · intro G alpha tol beta max_iter nstart x hraw hsq
    have h1 : iterScale true x = 1 := by simp [iterScale, hsq]
    have h2 : iterScale false x = 1 := by simp [iterScale]
    constructor
    · rw [katz_centrality, hraw]
      show Except.ok (iterNormalize true x) = _
      unfold iterNormalize
      rw [h1]
      simp
    · rw [katz_centrality, hraw]
      show Except.ok (iterNormalize false x) = _
      unfold iterNormalize
      rw [h2]
      simp
  · intro G alpha betaN xs hs
    rw [katz_numpy_eq G alpha betaN true xs hs]
    simp

theorem katz_C4_zero_norm_witness :
    (katz_raw G1 (1/2) (Beta.scalar 0) 1 1 none = .ok [(0, 0)] ∧
        sumSqV [(0, 0)] = 0) ∧
      (katz_centrality G1 (1/2) (Beta.scalar 0) 1 1 none true =
          .ok ([((0 : Nat), (0 : ℚ))].map
            (fun p => (p.1, ((p.2 : ℚ) : ℝ)))) ∧
        katz_centrality G1 (1/2) (Beta.scalar 0) 1 1 none false =
          .ok ([((0 : Nat), (0 : ℚ))].map
            (fun p => (p.1, ((p.2 : ℚ) : ℝ))))) := by
  have hraw : katz_raw G1 (1/2) (Beta.scalar 0) 1 1 none = .ok [(0, 0)] := by
    norm_num [katz_raw, multigraphCheck, castBeta, startVec, katzLoop,
      onePass, passGo, nodeUpdate, accumNbrs, lookupV, errSum, G1]
  have hsq : sumSqV [((0 : Nat), (0 : ℚ))] = 0 := by norm_num [sumSqV]
  exact ⟨⟨hraw, hsq⟩, katz_C4_zero_norm.1 G1 (1/2) 1 (Beta.scalar 0) 1 none
    [(0, 0)] hraw hsq⟩

/-- C4 (counterexample): on the two-node graph with the weight `-20`
edge, the direct solver's unnormalized result is `{0: -1, 1: 1}` and
the norm it computes — the signed norm `sign(-1+1)·‖(-1,1)‖` — is
exactly zero; the claim then demands the scale factor be treated as 1
(identity scaling), i.e. the normalized result `{0: -1, 1: 1}`.  The
code instead divides by the zero norm (numpy floats give non-finite
entries; in this exact-arithmetic embedding, where field division by
zero is 0, the entries become 0): the normalized result differs from
the identity-scaled one under either semantics. -/
theorem katz_C4_counterexample :
    katz_numpy Gd (1/10) 1 false = .ok [(0, (-1 : ℝ)), (1, 1)] ∧
      signedNormR [(-1 : ℚ), 1] = 0 ∧
      katz_numpy Gd (1/10) 1 true = .ok [(0, (0 : ℝ)), (1, 0)] ∧
      ([((0 : Nat), (0 : ℝ)), (1, 0)] ≠
        [((0 : Nat), (-1 : ℝ)), (1, 1)]) := by
  have hs := katz_numpy_solve_Gd
  have hsn : signedNormR [(-1 : ℚ), 1] = 0 := by
    norm_num [signedNormR, signQ, sumSqL]
  refine ⟨?_, hsn, ?_, by norm_num⟩
  · rw [katz_numpy_eq Gd (1/10) 1 false [-1, 1] hs]
    norm_num [Gd]
  · rw [katz_numpy_eq Gd (1/10) 1 true [-1, 1] hs]
    norm_num [hsn, Gd, div_zero]
